import Mathlib

/-!
Verification of the foodgram backend core logic: shallow embedding of the
shopping-list aggregation, document rendering, recipe validation and
persistence pipeline, collection toggles, subscriptions and short links,
translated from the Django sources under backend/.
-/

set_option maxHeartbeats 1000000

namespace Foodgram

/-! ## Data model (backend/foodgram/models.py) -/

/-- An Ingredient row: name plus measurement unit; the pair
(name, measurement_unit) carries a unique constraint in the schema. -/
structure Ingredient where
  id : Nat
  name : String
  measurement_unit : String
  deriving DecidableEq, Repr

/-- A RecipeIngredient join row: (recipe, ingredient, amount), amount a
positive integer, with a unique (recipe, ingredient) constraint. -/
structure RecipeIngredientRow where
  recipe_id : Nat
  ingredient : Ingredient
  amount : Nat
  deriving DecidableEq, Repr

/-- One output entry of the shopping-list aggregation: the Python code keeps
a dict mapping the ingredient name to a dict with keys "amount" and
"measurement_unit"; a Python dict preserves insertion order, so the dict is
embedded as an association list of entries. -/
structure Entry where
  name : String
  measurement_unit : String
  amount : Nat
  deriving DecidableEq, Repr

/-! ## Shopping-list aggregation
(backend/foodgram/views.py, ShoppingCartViewSet.download_shopping_list,
lines 126-136). The loop body is: look the ingredient name up in the dict;
on a hit add the amount to the stored amount; on a miss append a fresh
named entry holding this amount and this measurement unit. The dict is
keyed by the ingredient NAME alone. -/

/-- One iteration of the aggregation loop of download_shopping_list. -/
def addRow (acc : List Entry) (row : RecipeIngredientRow) : List Entry :=
  if acc.any (fun e => e.name == row.ingredient.name) then
    acc.map (fun e =>
      if e.name == row.ingredient.name then
        ⟨e.name, e.measurement_unit, e.amount + row.amount⟩
      else e)
  else
    acc ++ [⟨row.ingredient.name, row.ingredient.measurement_unit, row.amount⟩]

/-- The aggregation loop over all fetched RecipeIngredient rows. -/
def aggregate (rows : List RecipeIngredientRow) : List Entry :=
  rows.foldl addRow []

/-- Stable insertion of a row into a list sorted by recipe_id; models the
queryset ordering Meta.ordering = ("recipe",) of RecipeIngredient. -/
def insertByRecipe (r : RecipeIngredientRow) :
    List RecipeIngredientRow → List RecipeIngredientRow
  | [] => [r]
  | x :: xs =>
    if r.recipe_id ≤ x.recipe_id then r :: x :: xs else x :: insertByRecipe r xs

/-- Stable sort by recipe_id, the order in which the queryset
RecipeIngredient.objects.filter(recipe_id__in=...) yields its rows. -/
def sortByRecipe : List RecipeIngredientRow → List RecipeIngredientRow
  | [] => []
  | x :: xs => insertByRecipe x (sortByRecipe xs)

/-- The rows fetched by download_shopping_list: all RecipeIngredient rows of
the recipes in the cart (filter recipe_id__in=recipe_ids), in queryset
order. -/
def cartRows (db : List RecipeIngredientRow) (cart : List Nat) :
    List RecipeIngredientRow :=
  sortByRecipe (db.filter (fun r => decide (r.recipe_id ∈ cart)))

/-- The aggregated shopping list produced by download_shopping_list for a
database of RecipeIngredient rows and the list of recipe ids in the cart of
the acting user. -/
def download_shopping_list (db : List RecipeIngredientRow) (cart : List Nat) :
    List Entry :=
  aggregate (cartRows db cart)

/-! ## Analysis helpers for the aggregation -/

/-- Amount stored under a name in the aggregation output (0 when absent). -/
def amountOf : List Entry → String → Nat
  | [], _ => 0
  | e :: es, n => if e.name = n then e.amount else amountOf es n

/-- Measurement unit stored under a name in the aggregation output. -/
def unitOf : List Entry → String → Option String
  | [], _ => none
  | e :: es, n => if e.name = n then some e.measurement_unit else unitOf es n

/-- Sum of the amounts of all rows whose ingredient bears a given name. -/
def rowsTotal : List RecipeIngredientRow → String → Nat
  | [], _ => 0
  | r :: rs, n => (if r.ingredient.name = n then r.amount else 0) + rowsTotal rs n

/-- Measurement unit of the first row whose ingredient bears a given name. -/
def firstUnit : List RecipeIngredientRow → String → Option String
  | [], _ => none
  | r :: rs, n =>
    if r.ingredient.name = n then some r.ingredient.measurement_unit
    else firstUnit rs n

/-- Names of the aggregation output entries, in output order. -/
def entryNames (es : List Entry) : List String := es.map (fun e => e.name)

/-- Ingredient names of a row list, in row order. -/
def rowNames (rows : List RecipeIngredientRow) : List String :=
  rows.map (fun r => r.ingredient.name)

/-- First occurrences of a name list, skipping names already seen. -/
def dedupFirstAux (seen : List String) : List String → List String
  | [] => []
  | n :: ns =>
    if n ∈ seen then dedupFirstAux seen ns
    else n :: dedupFirstAux (n :: seen) ns

/-- First-occurrence order of a name list. -/
def dedupFirst (ns : List String) : List String := dedupFirstAux [] ns

/-- Modelled from the spec: case-sensitive lexicographic order on names, the
order the specification demands for the aggregated output. -/
def lexLe : List Char → List Char → Bool
  | [], _ => true
  | _ :: _, [] => false
  | a :: as, b :: bs => if a = b then lexLe as bs else decide (a < b)

/-- Modelled from the spec: name comparison for output ordering. -/
def nameLe (a b : String) : Bool := lexLe a.data b.data

/-- Modelled from the spec: the output entries are ordered by name
ascending. -/
def orderedByName : List Entry → Bool
  | [] => true
  | [_] => true
  | a :: b :: rest => nameLe a.name b.name && orderedByName (b :: rest)

/-- Sample ingredients for the concrete scenarios. -/
def eggsIng : Ingredient := ⟨1, "eggs", "pcs"⟩

def flourIng : Ingredient := ⟨2, "flour", "g"⟩

def sugarIng : Ingredient := ⟨3, "sugar", "g"⟩

def flourKgIng : Ingredient := ⟨4, "flour", "kg"⟩

/-- Rows of the specification scenario: Recipe1 holds 2 eggs and 100 g
flour, Recipe2 holds 3 eggs and 50 g sugar. -/
def scenarioDb : List RecipeIngredientRow :=
  [⟨1, eggsIng, 2⟩, ⟨1, flourIng, 100⟩, ⟨2, eggsIng, 3⟩, ⟨2, sugarIng, 50⟩]

example :
    download_shopping_list scenarioDb [1, 2] =
      [⟨"eggs", "pcs", 5⟩, ⟨"flour", "g", 100⟩, ⟨"sugar", "g", 50⟩] := by
  decide

example :
    download_shopping_list [⟨1, flourIng, 100⟩, ⟨2, flourKgIng, 2⟩] [1, 2] =
      [⟨"flour", "g", 102⟩] := by decide

example : nameLe "sugar" "eggs" = false := by decide

example : nameLe "eggs" "flour" = true := by decide

example :
    orderedByName (download_shopping_list [⟨1, sugarIng, 50⟩, ⟨1, eggsIng, 2⟩] [1]) =
      false := by decide

/-! ## Lemmas about one aggregation step -/

theorem amountOf_mapAdd_of_mem (m : String) (a : Nat) (acc : List Entry)
    (hm : ∃ e ∈ acc, e.name = m) :
    amountOf (acc.map (fun e =>
      if e.name = m then ⟨e.name, e.measurement_unit, e.amount + a⟩ else e)) m =
      amountOf acc m + a := by
  induction acc with
  | nil => simp at hm
  | cons e es ih =>
    by_cases he : e.name = m
    · simp [amountOf, he]
    · have hm' : ∃ x ∈ es, x.name = m := by
        rcases hm with ⟨x, hx, hxm⟩
        rcases List.mem_cons.mp hx with h | h
        · exact absurd (h ▸ hxm) he
        · exact ⟨x, h, hxm⟩
      simp [amountOf, he, ih hm']

theorem amountOf_mapAdd_of_ne (m : String) (a : Nat) (acc : List Entry)
    (n : String) (hne : m ≠ n) :
    amountOf (acc.map (fun e =>
      if e.name = m then ⟨e.name, e.measurement_unit, e.amount + a⟩ else e)) n =
      amountOf acc n := by
  induction acc with
  | nil => simp [amountOf]
  | cons e es ih =>
    by_cases hem : e.name = m
    · have hen : ¬ e.name = n := fun h => hne (by rw [← hem, h])
      simp [amountOf, hem, hen, hne, ih]
    · by_cases hen : e.name = n
      · have hnm : ¬ n = m := fun h => hem (by rw [hen, h])
        simp [amountOf, hem, hen, hnm, ih]
      · simp [amountOf, hem, hen, ih]

theorem amountOf_eq_zero (acc : List Entry) (n : String)
    (h : ∀ e ∈ acc, e.name ≠ n) : amountOf acc n = 0 := by
  induction acc with
  | nil => rfl
  | cons e es ih =>
    have := h e (List.mem_cons_self e es)
    simp [amountOf, this]
    exact ih (fun x hx => h x (List.mem_cons_of_mem e hx))

theorem amountOf_append_singleton (acc : List Entry) (x : Entry) (n : String)
    (h : ∀ e ∈ acc, e.name ≠ n) :
    amountOf (acc ++ [x]) n = if x.name = n then x.amount else 0 := by
  induction acc with
  | nil => simp [amountOf]
  | cons e es ih =>
    have := h e (List.mem_cons_self e es)
    simp only [List.cons_append, amountOf, this, if_neg]
    exact ih (fun y hy => h y (List.mem_cons_of_mem e hy))

theorem amountOf_append_singleton_ne (acc : List Entry) (x : Entry) (n : String)
    (hx : x.name ≠ n) : amountOf (acc ++ [x]) n = amountOf acc n := by
  induction acc with
  | nil => simp [amountOf, hx]
  | cons e es ih =>
    by_cases hen : e.name = n <;> simp [amountOf, hen, ih]

theorem any_name_iff (acc : List Entry) (m : String) :
    (acc.any fun e => e.name == m) = true ↔ ∃ e ∈ acc, e.name = m := by
  simp [List.any_eq_true]

theorem amountOf_addRow (acc : List Entry) (r : RecipeIngredientRow) (n : String) :
    amountOf (addRow acc r) n =
      amountOf acc n + (if r.ingredient.name = n then r.amount else 0) := by
  by_cases hb : (acc.any fun e => e.name == r.ingredient.name) = true
  · unfold addRow
    rw [if_pos hb]
    simp only [beq_iff_eq]
    by_cases hn : r.ingredient.name = n
    · subst hn
      simp [amountOf_mapAdd_of_mem _ _ _ ((any_name_iff _ _).mp hb)]
    · simp [amountOf_mapAdd_of_ne _ _ _ _ hn, hn]
  · have habs : ∀ e ∈ acc, e.name ≠ r.ingredient.name := by
      intro e he heq
      exact hb ((any_name_iff _ _).mpr ⟨e, he, heq⟩)
    unfold addRow
    rw [if_neg hb]
    by_cases hn : r.ingredient.name = n
    · subst hn
      rw [amountOf_append_singleton _ _ _ habs, amountOf_eq_zero _ _ habs]
      simp
    · rw [amountOf_append_singleton_ne]
      · simp [hn]
      · exact hn

theorem amountOf_foldl (rows : List RecipeIngredientRow) (acc : List Entry)
    (n : String) :
    amountOf (rows.foldl addRow acc) n = amountOf acc n + rowsTotal rows n := by
  induction rows generalizing acc with
  | nil => simp [rowsTotal]
  | cons r rs ih =>
    simp only [List.foldl_cons, rowsTotal]
    rw [ih, amountOf_addRow]
    omega

/-- Central fact: the amount reported under a name is the arithmetic sum of
the amounts of all rows bearing that name. -/
theorem amountOf_aggregate (rows : List RecipeIngredientRow) (n : String) :
    amountOf (aggregate rows) n = rowsTotal rows n := by
  simp [aggregate, amountOf_foldl rows [] n, amountOf]

/-! ## Lemmas about the reported measurement unit -/

theorem unitOf_mapAdd (m : String) (a : Nat) (acc : List Entry) (n : String) :
    unitOf (acc.map (fun e =>
      if e.name = m then ⟨e.name, e.measurement_unit, e.amount + a⟩ else e)) n =
      unitOf acc n := by
  induction acc with
  | nil => simp [unitOf]
  | cons e es ih =>
    by_cases hem : e.name = m
    · by_cases hen : e.name = n
      · have hmn : m = n := by rw [← hem, hen]
        simp [unitOf, hem, hen, hmn]
      · have hnn : ¬ m = n := fun h => hen (by rw [hem, h])
        simp [unitOf, hem, hen, hnn, ih]
    · by_cases hen : e.name = n
      · have hnm : ¬ n = m := fun h => hem (by rw [hen, h])
        simp [unitOf, hem, hen, hnm, ih]
      · simp [unitOf, hem, hen, ih]

theorem unitOf_append_none (acc : List Entry) (x : Entry) (n : String)
    (h : unitOf acc n = none) : unitOf (acc ++ [x]) n = unitOf [x] n := by
  induction acc with
  | nil => simp
  | cons e es ih =>
    by_cases hen : e.name = n
    · simp [unitOf, hen] at h
    · simp only [unitOf, hen, if_neg, List.cons_append] at h ⊢
      exact ih h

theorem unitOf_append_some (acc : List Entry) (x : Entry) (n : String)
    (u : String) (h : unitOf acc n = some u) :
    unitOf (acc ++ [x]) n = some u := by
  induction acc with
  | nil => simp [unitOf] at h
  | cons e es ih =>
    by_cases hen : e.name = n
    · simp only [unitOf, hen, if_pos] at h ⊢
      exact h
    · simp only [unitOf, hen, if_neg, List.cons_append] at h ⊢
      exact ih h

theorem unitOf_none_of_absent (acc : List Entry) (n : String)
    (h : ∀ e ∈ acc, e.name ≠ n) : unitOf acc n = none := by
  induction acc with
  | nil => rfl
  | cons e es ih =>
    have := h e (List.mem_cons_self e es)
    simp only [unitOf, this, if_neg]
    exact ih (fun x hx => h x (List.mem_cons_of_mem e hx))

theorem unitOf_some_of_mem (acc : List Entry) (n : String)
    (h : ∃ e ∈ acc, e.name = n) : ∃ u, unitOf acc n = some u := by
  induction acc with
  | nil => simp at h
  | cons e es ih =>
    by_cases hen : e.name = n
    · exact ⟨e.measurement_unit, by simp [unitOf, hen]⟩
    · have h' : ∃ x ∈ es, x.name = n := by
        rcases h with ⟨x, hx, hxn⟩
        rcases List.mem_cons.mp hx with hh | hh
        · exact absurd (hh ▸ hxn) hen
        · exact ⟨x, hh, hxn⟩
      rcases ih h' with ⟨u, hu⟩
      exact ⟨u, by simp [unitOf, hen, hu]⟩

theorem unitOf_addRow (acc : List Entry) (r : RecipeIngredientRow) (n : String) :
    unitOf (addRow acc r) n =
      (match unitOf acc n with
        | some u => some u
        | none =>
          if r.ingredient.name = n then some r.ingredient.measurement_unit
          else none) := by
  by_cases hb : (acc.any fun e => e.name == r.ingredient.name) = true
  · unfold addRow
    rw [if_pos hb]
    simp only [beq_iff_eq]
    rw [unitOf_mapAdd]
    cases hu : unitOf acc n with
    | some u => rfl
    | none =>
      by_cases hn : r.ingredient.name = n
      · rcases unitOf_some_of_mem acc n (hn ▸ (any_name_iff _ _).mp hb) with ⟨u, hu'⟩
        rw [hu] at hu'
        exact absurd hu' (by simp)
      · simp [hn]
  · unfold addRow
    rw [if_neg hb]
    cases hu : unitOf acc n with
    | some u => exact unitOf_append_some _ _ _ _ hu
    | none =>
      rw [unitOf_append_none _ _ _ hu]
      simp [unitOf]

theorem unitOf_foldl (rows : List RecipeIngredientRow) (acc : List Entry)
    (n : String) :
    unitOf (rows.foldl addRow acc) n =
      (match unitOf acc n with
        | some u => some u
        | none => firstUnit rows n) := by
  induction rows generalizing acc with
  | nil =>
    cases hu : unitOf acc n <;> simp [firstUnit, hu]
  | cons r rs ih =>
    simp only [List.foldl_cons]
    rw [ih, unitOf_addRow]
    cases hu : unitOf acc n with
    | some u => rfl
    | none =>
      by_cases hn : r.ingredient.name = n <;> simp [firstUnit, hn]

/-- The measurement unit reported under a name is the unit of the first row
bearing that name. -/
theorem unitOf_aggregate (rows : List RecipeIngredientRow) (n : String) :
    unitOf (aggregate rows) n = firstUnit rows n := by
  have h := unitOf_foldl rows [] n
  simpa [aggregate, unitOf] using h

/-! ## Lemmas about the order and distinctness of output names -/

theorem entryNames_mapAdd (m : String) (a : Nat) (acc : List Entry) :
    entryNames (acc.map (fun e =>
      if e.name = m then ⟨e.name, e.measurement_unit, e.amount + a⟩ else e)) =
      entryNames acc := by
  induction acc with
  | nil => rfl
  | cons e es ih =>
    by_cases hem : e.name = m <;> simp [entryNames, hem] <;>
      simpa [entryNames] using ih

theorem dedupFirstAux_congr (ns : List String) (s₁ s₂ : List String)
    (h : ∀ x, x ∈ s₁ ↔ x ∈ s₂) :
    dedupFirstAux s₁ ns = dedupFirstAux s₂ ns := by
  induction ns generalizing s₁ s₂ with
  | nil => rfl
  | cons n ns ih =>
    by_cases hn : n ∈ s₁
    · rw [dedupFirstAux, dedupFirstAux, if_pos hn, if_pos ((h n).mp hn)]
      exact ih s₁ s₂ h
    · rw [dedupFirstAux, dedupFirstAux, if_neg hn, if_neg (fun hx => hn ((h n).mpr hx))]
      rw [ih (n :: s₁) (n :: s₂) (fun x => by simp [h x])]

theorem entryNames_foldl (rows : List RecipeIngredientRow) (acc : List Entry) :
    entryNames (rows.foldl addRow acc) =
      entryNames acc ++ dedupFirstAux (entryNames acc) (rowNames rows) := by
  induction rows generalizing acc with
  | nil => simp [rowNames, dedupFirstAux]
  | cons r rs ih =>
    simp only [List.foldl_cons, rowNames, List.map_cons]
    by_cases hb : (acc.any fun e => e.name == r.ingredient.name) = true
    · have hmem : r.ingredient.name ∈ entryNames acc := by
        rcases (any_name_iff _ _).mp hb with ⟨e, he, hn⟩
        exact hn ▸ List.mem_map_of_mem (fun e => e.name) he
      have ha : addRow acc r = acc.map (fun e =>
          if e.name = r.ingredient.name then
            ⟨e.name, e.measurement_unit, e.amount + r.amount⟩
          else e) := by
        unfold addRow
        rw [if_pos hb]
        simp only [beq_iff_eq]
      rw [ha, ih, entryNames_mapAdd, dedupFirstAux, if_pos hmem]
      rfl
    · have hmem : r.ingredient.name ∉ entryNames acc := by
        intro hx
        rcases List.mem_map.mp hx with ⟨e, he, hn⟩
        exact hb ((any_name_iff _ _).mpr ⟨e, he, hn⟩)
      have ha : addRow acc r =
          acc ++ [⟨r.ingredient.name, r.ingredient.measurement_unit, r.amount⟩] := by
        unfold addRow
        rw [if_neg hb]
      rw [ha, ih]
      have hnames : entryNames (acc ++
          [⟨r.ingredient.name, r.ingredient.measurement_unit, r.amount⟩]) =
          entryNames acc ++ [r.ingredient.name] := by
        simp [entryNames]
      rw [hnames, dedupFirstAux, if_neg hmem]
      rw [dedupFirstAux_congr (rowNames rs)
        (entryNames acc ++ [r.ingredient.name]) (r.ingredient.name :: entryNames acc)
        (fun x => by simp [or_comm])]
      simp [rowNames]

/-- The output names are exactly the first occurrences of the row names, in
first-occurrence order. -/
theorem entryNames_aggregate (rows : List RecipeIngredientRow) :
    entryNames (aggregate rows) = dedupFirst (rowNames rows) := by
  have h := entryNames_foldl rows []
  simpa [aggregate, entryNames, dedupFirst] using h

theorem dedupFirstAux_nodup (ns : List String) (seen : List String) :
    (dedupFirstAux seen ns).Nodup ∧ ∀ x ∈ dedupFirstAux seen ns, x ∉ seen := by
  induction ns generalizing seen with
  | nil => simp [dedupFirstAux]
  | cons n ns ih =>
    by_cases hn : n ∈ seen
    · rw [dedupFirstAux, if_pos hn]
      exact ih seen
    · rw [dedupFirstAux, if_neg hn]
      obtain ⟨h1, h2⟩ := ih (n :: seen)
      refine ⟨List.nodup_cons.mpr ⟨fun hx => ?_, h1⟩, ?_⟩
      · exact (h2 n hx) (List.mem_cons_self n seen)
      · intro x hx
        rcases List.mem_cons.mp hx with hh | hh
        · exact hh ▸ hn
        · exact fun hs => (h2 x hh) (List.mem_cons_of_mem n hs)

/-- The aggregation never emits two entries with the same name. -/
theorem aggregate_names_nodup (rows : List RecipeIngredientRow) :
    (entryNames (aggregate rows)).Nodup := by
  rw [entryNames_aggregate]
  exact (dedupFirstAux_nodup (rowNames rows) []).1

/-! ## Lemmas about the cart row fetch (filter plus queryset ordering) -/

theorem rowsTotal_insertByRecipe (r : RecipeIngredientRow)
    (rows : List RecipeIngredientRow) (n : String) :
    rowsTotal (insertByRecipe r rows) n =
      (if r.ingredient.name = n then r.amount else 0) + rowsTotal rows n := by
  induction rows with
  | nil => simp [insertByRecipe, rowsTotal]
  | cons x xs ih =>
    by_cases hle : r.recipe_id ≤ x.recipe_id
    · rw [insertByRecipe, if_pos hle]
      simp [rowsTotal]
    · rw [insertByRecipe, if_neg hle]
      simp only [rowsTotal, ih]
      ring

theorem rowsTotal_sortByRecipe (rows : List RecipeIngredientRow) (n : String) :
    rowsTotal (sortByRecipe rows) n = rowsTotal rows n := by
  induction rows with
  | nil => rfl
  | cons x xs ih =>
    rw [sortByRecipe, rowsTotal_insertByRecipe, ih]
    simp [rowsTotal]

/-- The total reported for a name is the sum of the amounts of the matching
rows of the recipes in the cart. -/
theorem amountOf_download (db : List RecipeIngredientRow) (cart : List Nat)
    (n : String) :
    amountOf (download_shopping_list db cart) n =
      rowsTotal (db.filter fun r => decide (r.recipe_id ∈ cart)) n := by
  rw [download_shopping_list, amountOf_aggregate, cartRows, rowsTotal_sortByRecipe]

theorem filter_mem_congr (db : List RecipeIngredientRow) (cart cart' : List Nat)
    (h : ∀ x, x ∈ cart ↔ x ∈ cart') :
    (db.filter fun r => decide (r.recipe_id ∈ cart)) =
      (db.filter fun r => decide (r.recipe_id ∈ cart')) := by
  induction db with
  | nil => rfl
  | cons r rs ih =>
    have hd : decide (r.recipe_id ∈ cart) = decide (r.recipe_id ∈ cart') :=
      decide_eq_decide.mpr (h r.recipe_id)
    rw [List.filter_cons, List.filter_cons, hd, ih]

/-- The aggregation output depends on the cart only through the SET of
recipe ids it holds: the rows are fetched by recipe_id__in and iterated in
queryset order, never in cart order. -/
theorem download_congr (db : List RecipeIngredientRow) (cart cart' : List Nat)
    (h : ∀ x, x ∈ cart ↔ x ∈ cart') :
    download_shopping_list db cart = download_shopping_list db cart' := by
  rw [download_shopping_list, download_shopping_list, cartRows, cartRows,
    filter_mem_congr db cart cart' h]

theorem rowsTotal_filter_append (db : List RecipeIngredientRow)
    (cart : List Nat) (newId : Nat) (n : String) (h : newId ∉ cart) :
    rowsTotal (db.filter fun r => decide (r.recipe_id ∈ cart ++ [newId])) n =
      rowsTotal (db.filter fun r => decide (r.recipe_id ∈ cart)) n +
        rowsTotal (db.filter fun r => decide (r.recipe_id = newId)) n := by
  induction db with
  | nil => rfl
  | cons r rs ih =>
    rw [List.filter_cons, List.filter_cons, List.filter_cons]
    by_cases h1 : r.recipe_id ∈ cart
    · have h2 : ¬ r.recipe_id = newId := fun hh => h (hh ▸ h1)
      have hm : r.recipe_id ∈ cart ++ [newId] := List.mem_append_left _ h1
      rw [if_pos (decide_eq_true hm), if_pos (decide_eq_true h1),
        if_neg (by simp [h2])]
      simp only [rowsTotal]
      rw [ih]
      ring
    · by_cases h2 : r.recipe_id = newId
      · have hm : r.recipe_id ∈ cart ++ [newId] := by simp [h2]
        rw [if_pos (decide_eq_true hm), if_neg (by simp [h1]),
          if_pos (decide_eq_true h2)]
        simp only [rowsTotal]
        rw [ih]
        ring
      · have hm : r.recipe_id ∉ cart ++ [newId] := by
          simp [List.mem_append, h1, h2]
        rw [if_neg (by simp [hm]), if_neg (by simp [h1]), if_neg (by simp [h2])]
        exact ih

/-- A recipe contributes a (necessarily positive) amount for an ingredient
name when the database holds a matching row for it. -/
def recipeContributes (db : List RecipeIngredientRow) (rid : Nat)
    (n : String) : Prop :=
  ∃ row ∈ db, row.recipe_id = rid ∧ row.ingredient.name = n ∧ 1 ≤ row.amount

instance (db : List RecipeIngredientRow) (rid : Nat) (n : String) :
    Decidable (recipeContributes db rid n) := by
  unfold recipeContributes
  infer_instance

theorem rowsTotal_pos_of_contributes (db : List RecipeIngredientRow)
    (rid : Nat) (n : String) (h : recipeContributes db rid n) :
    1 ≤ rowsTotal (db.filter fun r => decide (r.recipe_id = rid)) n := by
  induction db with
  | nil => rcases h with ⟨row, hrow, _⟩; simp at hrow
  | cons r rs ih =>
    rcases h with ⟨row, hrow, hrid, hname, hamt⟩
    rw [List.filter_cons]
    rcases List.mem_cons.mp hrow with hh | hh
    · subst hh
      simp only [hrid, decide_True, if_true, rowsTotal, hname, if_pos]
      omega
    · have htail := ih ⟨row, hh, hrid, hname, hamt⟩
      by_cases hr : r.recipe_id = rid
      · simp only [hr, decide_True, if_true, rowsTotal]
        omega
      · simp only [hr, decide_False, Bool.false_eq_true, if_false]
        exact htail

theorem rowsTotal_zero_of_no_rows (db : List RecipeIngredientRow) (rid : Nat)
    (n : String) (h : ∀ row ∈ db, row.recipe_id = rid → row.ingredient.name ≠ n) :
    rowsTotal (db.filter fun r => decide (r.recipe_id = rid)) n = 0 := by
  induction db with
  | nil => rfl
  | cons r rs ih =>
    have htail := ih (fun row hrow => h row (List.mem_cons_of_mem r hrow))
    rw [List.filter_cons]
    by_cases hr : r.recipe_id = rid
    · have hname := h r (List.mem_cons_self r rs) hr
      simp only [hr, decide_True, if_true, rowsTotal, hname, if_neg, htail]
      simp [hname]
    · simp only [hr, decide_False, Bool.false_eq_true, if_false]
      exact htail

/-! ## Concrete databases for the counterexamples -/

/-- Recipe1 holds 100 g flour; Recipe2 holds 2 kg flour: same ingredient
name under two distinct measurement units. -/
def mixedUnitsDb : List RecipeIngredientRow :=
  [⟨1, flourIng, 100⟩, ⟨2, flourKgIng, 2⟩]

/-- A single recipe whose rows list sugar before eggs. -/
def unsortedDb : List RecipeIngredientRow :=
  [⟨1, sugarIng, 50⟩, ⟨1, eggsIng, 2⟩]

/-! ## Claims C1, C2 and C6 -/

/-- Claim C1 counterexample: rows with the same name but different units are
NOT kept as separate entries: the loop keys its dict on the ingredient name
alone, so 100 g flour and 2 kg flour collapse into a single entry of
amount 102 whose unit is the first-seen "g", and no "kg" entry survives. -/
theorem C1_counterexample :
    download_shopping_list mixedUnitsDb [1, 2] = [⟨"flour", "g", 102⟩] ∧
      ¬ ∃ e ∈ download_shopping_list mixedUnitsDb [1, 2],
          e.measurement_unit = "kg" := by
  decide

/-- Claim C1 (amended): the aggregation groups the cart rows by ingredient
name alone: the amount reported under a name is the arithmetic integer sum
of ALL contributing row amounts with that name, regardless of measurement
unit; the reported unit is the one of the first contributing row; and no
name appears twice in the output. Rows sharing name and unit are therefore
merged with summed amounts, but rows sharing a name across different units
are merged as well rather than kept separate. -/
theorem C1_amended_grouping (rows : List RecipeIngredientRow) (n : String) :
    amountOf (aggregate rows) n = rowsTotal rows n ∧
      unitOf (aggregate rows) n = firstUnit rows n ∧
      (entryNames (aggregate rows)).Nodup :=
  ⟨amountOf_aggregate rows n, unitOf_aggregate rows n, aggregate_names_nodup rows⟩

/-- Claim C2 counterexample: the output is NOT ordered by name ascending: a
cart recipe whose rows list sugar before eggs yields the entries in row
order (sugar first), which violates lexicographic name order. -/
theorem C2_counterexample :
    download_shopping_list unsortedDb [1] =
        [⟨"sugar", "g", 50⟩, ⟨"eggs", "pcs", 2⟩] ∧
      orderedByName (download_shopping_list unsortedDb [1]) = false := by
  decide

/-- Claim C2 (amended): the output is deterministic for a fixed cart state
and lists one entry per distinct ingredient name in FIRST-OCCURRENCE order
of the fetched rows (dict insertion order), not sorted by name; on the
scenario cart (Recipe1: 2 eggs, 100 g flour; Recipe2: 3 eggs, 50 g sugar)
this yields exactly eggs 5 pcs, flour 100 g, sugar 50 g, which happens to
coincide with name order. -/
theorem C2_amended_order :
    download_shopping_list scenarioDb [1, 2] =
        [⟨"eggs", "pcs", 5⟩, ⟨"flour", "g", 100⟩, ⟨"sugar", "g", 50⟩] ∧
      ∀ rows : List RecipeIngredientRow,
        entryNames (aggregate rows) = dedupFirst (rowNames rows) :=
  ⟨by decide, entryNames_aggregate⟩

/-- Claim C6 counterexample: adding Recipe2 (2 kg flour) to a cart holding
only Recipe1 (100 g flour) changes the total of the flour-in-grams entry
from 100 to 102, although Recipe2 contributes no (flour, g) row: totals are
NOT preserved per (name, unit) ingredient, because grouping is by name
alone. -/
theorem C6_counterexample :
    download_shopping_list mixedUnitsDb [1] = [⟨"flour", "g", 100⟩] ∧
      download_shopping_list mixedUnitsDb [1, 2] = [⟨"flour", "g", 102⟩] ∧
      ¬ ∃ row ∈ mixedUnitsDb, row.recipe_id = 2 ∧
          row.ingredient.name = "flour" ∧
          row.ingredient.measurement_unit = "g" := by
  decide

/-- Claim C6 (amended): the aggregation depends on the cart only through its
SET of recipe ids, so any two carts with the same members (in particular
any two orderings of the same recipes) yield identical output, totals and
units included; and at the granularity of ingredient NAMES, adding a recipe
not yet in the cart strictly increases the total of every name it
contributes (amounts being at least 1) and leaves the total of every name
it does not contribute unchanged. Per (name, unit) ingredient the
unchanged-totals part fails, since grouping is by name alone. -/
theorem C6_amended_set_semantics (db : List RecipeIngredientRow)
    (cart cart' : List Nat) (newId : Nat) (n : String)
    (hset : ∀ x, x ∈ cart ↔ x ∈ cart') (hnew : newId ∉ cart) :
    download_shopping_list db cart = download_shopping_list db cart' ∧
      (recipeContributes db newId n →
        amountOf (download_shopping_list db cart) n <
          amountOf (download_shopping_list db (cart ++ [newId])) n) ∧
      ((∀ row ∈ db, row.recipe_id = newId → row.ingredient.name ≠ n) →
        amountOf (download_shopping_list db (cart ++ [newId])) n =
          amountOf (download_shopping_list db cart) n) := by
  refine ⟨download_congr db cart cart' hset, ?_, ?_⟩
  · intro hc
    rw [amountOf_download, amountOf_download,
      rowsTotal_filter_append db cart newId n hnew]
    have := rowsTotal_pos_of_contributes db newId n hc
    omega
  · intro hn
    rw [amountOf_download, amountOf_download,
      rowsTotal_filter_append db cart newId n hnew,
      rowsTotal_zero_of_no_rows db newId n hn]
    simp

/-- Witness for the amended C6 at a concrete cart: reordering (and even
duplicating) cart ids leaves the output unchanged, and adding the kg-flour
recipe strictly increases the flour total. -/
theorem C6_amended_set_semantics_witness :
    download_shopping_list mixedUnitsDb [1] =
        download_shopping_list mixedUnitsDb [1, 1] ∧
      amountOf (download_shopping_list mixedUnitsDb [1]) "flour" <
        amountOf (download_shopping_list mixedUnitsDb [1, 2]) "flour" := by
  have h := C6_amended_set_semantics mixedUnitsDb [1] [1, 1] 2 "flour"
    (fun x => by simp) (by decide)
  exact ⟨h.1, h.2.1 (by decide)⟩

/-! ## Persistence state for recipe authoring
(backend/api/serializers.py, RecipeSerializer). Only the association tables
the claims are about are tracked: RecipeIngredient rows as
(recipe_id, ingredient_id, amount) triples and recipe-tag links as
(recipe_id, tag_id) pairs. -/

structure DBState where
  recipes : List Nat
  recipeIngredients : List (Nat × Nat × Nat)
  recipeTags : List (Nat × Nat)
  deriving DecidableEq, Repr

/-- RecipeIngredient.objects.create(recipe, ingredient_id, amount). -/
def insertIngredientRow (db : DBState) (rid iid amt : Nat) : DBState :=
  ⟨db.recipes, db.recipeIngredients ++ [(rid, iid, amt)], db.recipeTags⟩

/-- instance.recipe_ingredients.all().delete(). -/
def deleteIngredientRows (db : DBState) (rid : Nat) : DBState :=
  ⟨db.recipes, db.recipeIngredients.filter (fun t => decide (t.1 ≠ rid)),
    db.recipeTags⟩

/-- recipe.tags.set(tags_data): replaces the tag links of the recipe. -/
def setTags (db : DBState) (rid : Nat) (tags : List Nat) : DBState :=
  ⟨db.recipes, db.recipeIngredients,
    db.recipeTags.filter (fun t => decide (t.1 ≠ rid)) ++
      tags.map (fun tg => (rid, tg))⟩

/-- RecipeSerializer._save_ingredients: one create call per list item. -/
def saveIngredients (db : DBState) (rid : Nat) (ings : List (Nat × Nat)) :
    DBState :=
  ings.foldl (fun d p => insertIngredientRow d rid p.1 p.2) db

/-- The sequence of database states after each single create call of
_save_ingredients. -/
def saveIngredientsStates (db : DBState) (rid : Nat) :
    List (Nat × Nat) → List DBState
  | [] => []
  | p :: rest =>
    insertIngredientRow db rid p.1 p.2 ::
      saveIngredientsStates (insertIngredientRow db rid p.1 p.2) rid rest

/-- RecipeSerializer.update on validated data: when the new ingredient list
is non-empty, delete every RecipeIngredient row of the recipe and recreate
them one by one; when the new tag list is non-empty, reset the tag links. -/
def recipe_update (db : DBState) (rid : Nat) (ings : List (Nat × Nat))
    (tags : List Nat) : DBState :=
  let d1 := if ings.isEmpty then db
    else saveIngredients (deleteIngredientRows db rid) rid ings
  if tags.isEmpty then d1 else setTags d1 rid tags

/-- Every intermediate database state recipe_update passes through. The
serializer wraps none of its ORM calls in a transaction (there is no
transaction.atomic in the repository and settings.py sets no
ATOMIC_REQUESTS), so each delete and each create commits on its own and
every listed state is observable if the process fails right after it. -/
def recipe_update_states (db : DBState) (rid : Nat) (ings : List (Nat × Nat))
    (tags : List Nat) : List DBState :=
  (if ings.isEmpty then []
   else deleteIngredientRows db rid ::
     saveIngredientsStates (deleteIngredientRows db rid) rid ings) ++
    [recipe_update db rid ings tags]

/-! ## Recipe payload validation (api/serializers.py, RecipeSerializer) -/

/-- Error kinds of the validation pipeline, named as in the specification
taxonomy: empty list, duplicate id, unknown id, value constraint. -/
inductive ValErr
  | missingField
  | duplicateReference
  | unknownReference
  | invalidField
  deriving DecidableEq, Repr

/-- One submitted ingredient: an id and an amount (already an integer; the
int() conversion failure of the Python code is outside the model). -/
structure IngredientInput where
  id : Nat
  amount : Int
  deriving DecidableEq, Repr

/-- Per-item loop of RecipeSerializer.validate_ingredients: duplicate check
against the ids seen so far, existence check, then amount at least 1. -/
def validateIngredientItems (existingIds : List Nat) (seen : List Nat) :
    List IngredientInput → Except ValErr Unit
  | [] => .ok ()
  | ing :: rest =>
    if ing.id ∈ seen then .error .duplicateReference
    else if ing.id ∉ existingIds then .error .unknownReference
    else if ing.amount < 1 then .error .invalidField
    else validateIngredientItems existingIds (ing.id :: seen) rest

/-- RecipeSerializer.validate_ingredients: an empty list is rejected before
anything else. -/
def validate_ingredients (existingIds : List Nat)
    (value : List IngredientInput) : Except ValErr Unit :=
  if value.isEmpty then .error .missingField
  else validateIngredientItems existingIds [] value

/-- RecipeSerializer.validate_tags. -/
def validate_tags (existingTagIds : List Nat) (value : List Nat) :
    Except ValErr Unit :=
  if value.isEmpty then .error .missingField
  else if value.dedup.length ≠ value.length then .error .duplicateReference
  else if value.any (fun t => decide (t ∉ existingTagIds)) then
    .error .unknownReference
  else .ok ()

/-- RecipeSerializer.validate_cooking_time. -/
def validate_cooking_time (value : Int) : Except ValErr Unit :=
  if value < 1 then .error .invalidField else .ok ()

/-- A submitted recipe payload (association-relevant fields). -/
structure RecipePayload where
  ingredients : List IngredientInput
  tags : List Nat
  cooking_time : Int
  deriving DecidableEq, Repr

/-- The create path of RecipeViewSet.create: serializer.is_valid runs every
field validator and raises before serializer.save is reached, so on any
validation error the database is untouched; on success the recipe row, its
RecipeIngredient rows and its tag links are written. -/
def recipe_create (db : DBState) (existingIngredientIds existingTagIds : List Nat)
    (rid : Nat) (p : RecipePayload) : Except ValErr DBState :=
  match validate_ingredients existingIngredientIds p.ingredients with
  | .error e => .error e
  | .ok _ =>
    match validate_tags existingTagIds p.tags with
    | .error e => .error e
    | .ok _ =>
      match validate_cooking_time p.cooking_time with
      | .error e => .error e
      | .ok _ =>
        let db1 : DBState := ⟨db.recipes ++ [rid], db.recipeIngredients,
          db.recipeTags⟩
        .ok (setTags
          (saveIngredients db1 rid
            (p.ingredients.map (fun i => (i.id, i.amount.toNat))))
          rid p.tags)

/-! ## Claims C3 and C9 -/

/-- A database in which recipe 1 has one ingredient row (ingredient 10,
amount 5) and one tag link (tag 7). -/
def dbBefore : DBState := ⟨[1], [(1, 10, 5)], [(1, 7)]⟩

/-- The state after the delete and the first of the two ingredient creates
of an update of recipe 1 to ingredients [(11, 3), (12, 4)] and tags [8]. -/
def dbMid : DBState := ⟨[1], [(1, 11, 3)], [(1, 7)]⟩

/-- Claim C3: recipe update is NOT all-or-nothing after validation: the
update of recipe 1 from ingredient row (10, 5) to rows (11, 3), (12, 4)
passes through the committed state holding only (11, 3) — neither the
pre-operation state nor the full new state — because the delete and each
create are separate unwrapped ORM writes. A failure after the first create
leaves this partial state observable. -/
theorem C3_partial_write_observable :
    dbMid ∈ recipe_update_states dbBefore 1 [(11, 3), (12, 4)] [8] ∧
      dbMid ≠ dbBefore ∧
      dbMid ≠ recipe_update dbBefore 1 [(11, 3), (12, 4)] [8] := by
  decide

/-- Claim C9: a recipe creation attempt whose ingredients list is empty is
rejected with MissingField by validate_ingredients, which runs before any
write: recipe_create returns the error and produces no state. -/
theorem C9_empty_ingredients_rejected (db : DBState)
    (existingIngredientIds existingTagIds : List Nat) (rid : Nat)
    (p : RecipePayload) (h : p.ingredients = []) :
    recipe_create db existingIngredientIds existingTagIds rid p =
      .error .missingField := by
  simp [recipe_create, validate_ingredients, h]

/-- Witness for C9 at a concrete empty-ingredient payload. -/
theorem C9_empty_ingredients_rejected_witness :
    recipe_create ⟨[], [], []⟩ [5] [3] 1 ⟨[], [3], 10⟩ =
      .error .missingField :=
  C9_empty_ingredients_rejected _ _ _ _ _ rfl

/-! ## Favorite toggle (api/views.py RecipeViewSet.add_to_favorites and
remove_from_favorites; foodgram/views.py RecipeViewSet.unfavorite) -/

/-- Failure kinds of the toggle endpoints. -/
inductive ToggleErr
  | alreadyExists
  | notFound
  deriving DecidableEq, Repr

/-- api/views.py add_to_favorites: FavoriteSerializer.validate raises when
the (user, recipe) pair exists, otherwise the pair is created. -/
def add_to_favorites (favs : List (Nat × Nat)) (u rid : Nat) :
    Except ToggleErr (List (Nat × Nat)) :=
  if (u, rid) ∈ favs then .error .alreadyExists
  else .ok (favs ++ [(u, rid)])

/-- api/views.py remove_from_favorites: deletes when the pair exists,
otherwise answers with a 400 failure. -/
def remove_from_favorites (favs : List (Nat × Nat)) (u rid : Nat) :
    Except ToggleErr (List (Nat × Nat)) :=
  if (u, rid) ∈ favs then .ok (favs.filter (fun p => decide (p ≠ (u, rid))))
  else .error .notFound

/-- foodgram/views.py RecipeViewSet.unfavorite: filter().delete() followed
by an unconditional success response, whether or not anything matched. -/
def fg_unfavorite (favs : List (Nat × Nat)) (u rid : Nat) :
    List (Nat × Nat) × String :=
  (favs.filter (fun p => decide (p ≠ (u, rid))), "removed from favorites")

theorem filter_ne_of_not_mem (l : List (Nat × Nat)) (x : Nat × Nat)
    (h : x ∉ l) : l.filter (fun p => decide (p ≠ x)) = l := by
  induction l with
  | nil => rfl
  | cons a as ih =>
    have hax : a ≠ x := fun hh => h (hh ▸ List.mem_cons_self a as)
    rw [List.filter_cons, if_pos (by simpa using hax)]
    rw [ih (fun hx => h (List.mem_cons_of_mem a hx))]

/-- Claim C4 counterexample: the cited foodgram unfavorite endpoint, called
on a state in which the pair is absent, answers with the success status and
an unchanged table — a silent no-op success, not a NotFound failure. -/
theorem C4_counterexample :
    fg_unfavorite [] 1 1 = ([], "removed from favorites") := by
  decide

/-- Claim C4 (amended): through the api/views.py favorite endpoints the
strict toggle holds: from an absent pair, Add succeeds and creates it, a
second Add fails AlreadyExists, Remove succeeds and deletes it, and a
second Remove fails NotFound; the foodgram/views.py unfavorite variant,
however, treats Remove of an absent pair as a silent no-op success. -/
theorem C4_amended_toggle (favs : List (Nat × Nat)) (u rid : Nat)
    (h : (u, rid) ∉ favs) :
    add_to_favorites favs u rid = .ok (favs ++ [(u, rid)]) ∧
      add_to_favorites (favs ++ [(u, rid)]) u rid = .error .alreadyExists ∧
      remove_from_favorites (favs ++ [(u, rid)]) u rid = .ok favs ∧
      remove_from_favorites favs u rid = .error .notFound ∧
      fg_unfavorite favs u rid = (favs, "removed from favorites") := by
  have hfilter := filter_ne_of_not_mem favs (u, rid) h
  refine ⟨?_, ?_, ?_, ?_, ?_⟩
  · rw [add_to_favorites, if_neg h]
  · rw [add_to_favorites, if_pos (by simp)]
  · rw [remove_from_favorites, if_pos (by simp), List.filter_append, hfilter]
    simp
  · rw [remove_from_favorites, if_neg h]
  · rw [fg_unfavorite, hfilter]

/-- Witness for the amended C4 on a concrete user and recipe. -/
theorem C4_amended_toggle_witness :
    add_to_favorites [] 1 2 = .ok [(1, 2)] ∧
      add_to_favorites [(1, 2)] 1 2 = .error .alreadyExists ∧
      remove_from_favorites [(1, 2)] 1 2 = .ok [] ∧
      remove_from_favorites [] 1 2 = .error .notFound ∧
      fg_unfavorite [] 1 2 = ([], "removed from favorites") := by
  have h := C4_amended_toggle [] 1 2 (by decide)
  simpa using h

/-! ## Subscription add (api/views.py CustomViewSet.subscribe) -/

/-- Failure kinds of the subscribe endpoint. -/
inductive SubscribeErr
  | userNotFound
  | selfReferenceForbidden
  | alreadyExists
  deriving DecidableEq, Repr

/-- CustomViewSet.subscribe: resolve the target user (404 when absent),
then reject self-subscription, then reject an existing subscription, then
create the (actor, target) row. -/
def subscribe (users : List Nat) (subs : List (Nat × Nat))
    (actor target : Nat) : Except SubscribeErr (List (Nat × Nat)) :=
  if target ∉ users then .error .userNotFound
  else if target = actor then .error .selfReferenceForbidden
  else if (actor, target) ∈ subs then .error .alreadyExists
  else .ok (subs ++ [(actor, target)])

/-- Claim C5: for every acting user that exists, subscribing to oneself
fails with SelfReferenceForbidden and creates no row; the self-reference
check runs before the existence check, so the result is the same for every
prior subscription state, including one already holding the pair. -/
theorem C5_self_subscribe_rejected (users : List Nat)
    (subs : List (Nat × Nat)) (actor : Nat) (h : actor ∈ users) :
    subscribe users subs actor actor = .error .selfReferenceForbidden := by
  rw [subscribe, if_neg (by simpa using h), if_pos rfl]

/-- Witness for C5: even with the (1, 1) pair already stored, the error is
SelfReferenceForbidden, never AlreadyExists. -/
theorem C5_self_subscribe_rejected_witness :
    subscribe [1] [(1, 1)] 1 1 = .error .selfReferenceForbidden :=
  C5_self_subscribe_rejected [1] [(1, 1)] 1 (by decide)

/-! ## Document renderer (backend/api/utils.py, generate_pdf) -/

/-- The observable canvas content: the finalized pages (each a list of the
text lines drawn on it) plus the lines drawn on the page still open. -/
structure Canvas where
  pages : List (List String)
  current : List String
  deriving DecidableEq, Repr

/-- canvas.drawString: draw one line of text on the open page. -/
def drawString (c : Canvas) (line : String) : Canvas :=
  ⟨c.pages, c.current ++ [line]⟩

/-- canvas.showPage: finalize the open page and open a fresh one. -/
def showPage (c : Canvas) : Canvas :=
  ⟨c.pages ++ [c.current], []⟩

/-- Page height of the letter page size, in points. -/
def letterHeight : Int := 792

/-- The header line naming the user. -/
def shoppingListHeader (username : String) : String :=
  "Список покупок для пользователя: " ++ username

/-- The line stating that the shopping list is empty. -/
def emptyListLine : String := "Список покупок пуст."

/-- The rendered line of one aggregated entry. -/
def entryLine (e : Entry) : String :=
  e.name ++ ": " ++ toString e.amount ++ " " ++ e.measurement_unit

/-- generate_pdf: header naming the user at y = height - 40, cursor then
advanced by 20; an empty list renders the single empty-statement line and
finalizes the page; otherwise one line per entry is drawn with the cursor
advancing 20 points and a page break (with font reapplied and cursor
reset) whenever the cursor drops below 40. Font registration and byte
serialization belong to the external reportlab library; the model keeps
the drawn lines and the page structure. -/
def generate_pdf (username : String) (ingredients : List Entry) : Canvas :=
  let c1 := drawString ⟨[], []⟩ (shoppingListHeader username)
  let y1 : Int := letterHeight - 40 - 20
  if ingredients.isEmpty then
    showPage (drawString c1 emptyListLine)
  else
    let res := ingredients.foldl
      (fun (acc : Canvas × Int) e =>
        let c := drawString acc.1 (entryLine e)
        let y := acc.2 - 20
        if y < 40 then (showPage c, letterHeight - 40) else (c, y))
      (c1, y1)
    showPage res.1

/-- Claim C7: for an empty aggregated list the renderer produces exactly one
page, holding the header line and exactly one further line stating the list
is empty, and stops there. -/
theorem C7_empty_cart_single_page (username : String) :
    generate_pdf username [] =
      ⟨[[shoppingListHeader username, emptyListLine]], []⟩ := by
  rfl

/-! ## Short-link generation (backend/foodgram/models.py,
Recipe.generate_short_link) -/

/-- generate_short_link: draw candidate strings one after another (the
successive values of the external get_random_string are modelled as a
list) until one is not already present among the stored hashes. A none
result means the supplied stream ran out before a fresh value appeared; in
the source the while-True loop would still be drawing, so no recipe is
saved in that case. -/
def generate_short_link (stored : List String) : List String → Option String
  | [] => none
  | d :: ds => if d ∈ stored then generate_short_link stored ds else some d

/-- Sequential recipe creation: each Recipe.save draws from its own stream
and, when generation terminates, appends the fresh hash to the stored
table, which the next generation then sees in full. -/
def createRecipes (stored : List String) : List (List String) → List String
  | [] => stored
  | draws :: rest =>
    match generate_short_link stored draws with
    | some hsh => createRecipes (stored ++ [hsh]) rest
    | none => createRecipes stored rest

/-- The loop only ever returns a value absent from the stored hashes. -/
theorem generate_short_link_fresh (stored : List String)
    (draws : List String) (hsh : String)
    (hres : generate_short_link stored draws = some hsh) : hsh ∉ stored := by
  induction draws with
  | nil => simp [generate_short_link] at hres
  | cons d ds ih =>
    by_cases hd : d ∈ stored
    · rw [generate_short_link, if_pos hd] at hres
      exact ih hres
    · rw [generate_short_link, if_neg hd] at hres
      exact (Option.some.inj hres) ▸ hd

/-- Claim C8: the generation loops until it finds a value not already
stored (never assuming uniqueness after one draw), so sequential creation
starting from a duplicate-free hash table keeps all stored hashes pairwise
distinct: no two recipes ever hold the same short-link hash. -/
theorem C8_short_link_unique (stored : List String)
    (drawss : List (List String)) (hnd : stored.Nodup) :
    (createRecipes stored drawss).Nodup ∧
      ∀ draws hsh, generate_short_link stored draws = some hsh →
        hsh ∉ stored := by
  refine ⟨?_, fun draws hsh hres => generate_short_link_fresh stored draws hsh hres⟩
  induction drawss generalizing stored with
  | nil => simpa [createRecipes] using hnd
  | cons draws rest ih =>
    rw [createRecipes]
    cases hg : generate_short_link stored draws with
    | none => exact ih stored hnd
    | some hsh =>
      refine ih _ ?_
      have hfresh := generate_short_link_fresh stored draws hsh hg
      simp [List.nodup_append, hnd, hfresh]

/-- Witness for C8: two sequential creations whose first draws collide with
already-stored hashes still end with pairwise distinct hashes. -/
theorem C8_short_link_unique_witness :
    (createRecipes ["abc123"] [["abc123", "xyz789"], ["xyz789", "qwe456"]]).Nodup :=
  (C8_short_link_unique ["abc123"] [["abc123", "xyz789"], ["xyz789", "qwe456"]]
    (by decide)).1

/-! ## Short-link retrieval (backend/api/views.py, RecipeViewSet.get_link) -/

/-- A stored Recipe row as seen by get_link: its id and the random,
collision-checked short_link_hash column written at save time. -/
structure RecipeRow where
  id : Nat
  short_link_hash : String
  deriving DecidableEq, Repr

/-- get_link: the first 6 characters of md5(str(recipe.id)).hexdigest()
appended to the configured base URL. The MD5 hex digest of the external
hashlib library enters as a function parameter; the stored short_link_hash
column is never consulted. -/
def get_link (md5hex : String → String) (baseUrl : String) (r : RecipeRow) :
    String :=
  baseUrl ++ (md5hex (toString r.id)).take 6

/-- Claim C10: get_link is a pure function of the recipe id and the
configured base URL (through the deterministic hash function): two recipes
with the same id — in particular the same recipe across runs, whatever
random short_link_hash its row stores — receive the same short link, so the
stored collision-checked hash never influences the result. -/
theorem C10_get_link_independent (md5hex : String → String) (baseUrl : String)
    (r₁ r₂ : RecipeRow) (h : r₁.id = r₂.id) :
    get_link md5hex baseUrl r₁ = get_link md5hex baseUrl r₂ := by
  rw [get_link, get_link, h]

/-- Witness for C10: same id, different stored hashes, same link. -/
theorem C10_get_link_independent_witness :
    get_link (fun s => s ++ s) "http://localhost:8000/" ⟨7, "abc123"⟩ =
      get_link (fun s => s ++ s) "http://localhost:8000/" ⟨7, "zzz999"⟩ :=
  C10_get_link_independent _ _ _ _ rfl

end Foodgram
